import Mathlib

/-!
Verification development for the `spdr-isa` crate: a shallow embedding of
`src/opcodes.rs` and `src/program.rs` (the opcode table, the `Program` byte
buffer, and its `Display`-based disassembler), together with theorems about
the claims made by the design specification.

Bytes are modelled as `Nat` (each byte read from a buffer is a value `< 256`;
no arithmetic is performed on them beyond little-endian recomposition, so no
wrap-around modelling is needed).  Fallible Rust paths — `unwrap()` on an
exhausted iterator, `next_chunk` on a too-short iterator, and the `panic!`
inside `From<u8> for OpCode` / `From<u8> for CmpFlag` — are modelled with
`Option`, `none` standing for the aborted computation.
-/

namespace Spdr

/-- The 36 opcode variants of `enum OpCode` in `src/opcodes.rs`, in their
Rust declaration order. -/
inductive OpCode where
  | Hlt
  | Load
  | Copy
  | MemCpy
  | AddRI
  | SubRI
  | RvSubRI
  | MulRI
  | DivRI
  | RvDivRI
  | PowRI
  | RvPowRI
  | AddRR
  | SubRR
  | MulRR
  | DivRR
  | PowRR
  | CmpRI
  | CmpRR
  | Not
  | Jmp
  | Jz
  | Jnz
  | Call
  | SysCall
  | Ret
  | Alloc
  | Realloc
  | Dealloc
  | RMem
  | WMem
  | WriteStr
  | Push
  | Pop
  | PopR
  | Noop
deriving DecidableEq

/-- `impl From<OpCode> for u8` (`value as u8`): the discriminant of each
variant, which Rust assigns consecutively from 0 in declaration order. -/
def opCodeToU8 : OpCode → Nat
  | .Hlt => 0
  | .Load => 1
  | .Copy => 2
  | .MemCpy => 3
  | .AddRI => 4
  | .SubRI => 5
  | .RvSubRI => 6
  | .MulRI => 7
  | .DivRI => 8
  | .RvDivRI => 9
  | .PowRI => 10
  | .RvPowRI => 11
  | .AddRR => 12
  | .SubRR => 13
  | .MulRR => 14
  | .DivRR => 15
  | .PowRR => 16
  | .CmpRI => 17
  | .CmpRR => 18
  | .Not => 19
  | .Jmp => 20
  | .Jz => 21
  | .Jnz => 22
  | .Call => 23
  | .SysCall => 24
  | .Ret => 25
  | .Alloc => 26
  | .Realloc => 27
  | .Dealloc => 28
  | .RMem => 29
  | .WMem => 30
  | .WriteStr => 31
  | .Push => 32
  | .Pop => 33
  | .PopR => 34
  | .Noop => 35

/-- The opcode variants listed in declaration order; position = discriminant.
Used to model `num_derive::FromPrimitive`, which succeeds exactly on the
declared discriminants. -/
def opCodeList : List OpCode :=
  [.Hlt, .Load, .Copy, .MemCpy, .AddRI, .SubRI, .RvSubRI, .MulRI, .DivRI,
   .RvDivRI, .PowRI, .RvPowRI, .AddRR, .SubRR, .MulRR, .DivRR, .PowRR,
   .CmpRI, .CmpRR, .Not, .Jmp, .Jz, .Jnz, .Call, .SysCall, .Ret, .Alloc,
   .Realloc, .Dealloc, .RMem, .WMem, .WriteStr, .Push, .Pop, .PopR, .Noop]

/-- `FromPrimitive::from_u8` for `OpCode`: `some` on discriminants 0–35,
`none` otherwise. -/
def opCodeFromU8? (n : Nat) : Option OpCode :=
  opCodeList[n]?

/-- Outcome of `impl From<u8> for OpCode`, which returns the opcode on a
valid tag and executes `panic!("{} is not a valid OpCode", value)` otherwise.
`aborts` models the panic: control never returns a value to the caller. -/
inductive DecodeOutcome where
  | ok (op : OpCode)
  | aborts
deriving DecidableEq

/-- `impl From<u8> for OpCode` in `src/opcodes.rs`: `Some(op) => op`,
`None => panic!(...)`. -/
def opCodeFromU8 (n : Nat) : DecodeOutcome :=
  match opCodeFromU8? n with
  | some op => .ok op
  | none => .aborts

/-- `enum CmpFlag` in `src/opcodes.rs`. -/
inductive CmpFlag where
  | Eq
  | Gt
  | Lt
  | Geq
  | Leq
deriving DecidableEq

/-- The `CmpFlag` variants in declaration order (discriminants 0–4). -/
def cmpFlagList : List CmpFlag := [.Eq, .Gt, .Lt, .Geq, .Leq]

/-- `FromPrimitive::from_u8` for `CmpFlag` (the `From<u8>` impl panics on
`none`; the decoder below propagates that as `none`). -/
def cmpFlagFromU8? (n : Nat) : Option CmpFlag :=
  cmpFlagList[n]?

/-- `impl Display for CmpFlag`. -/
def cmpFlagDisplay : CmpFlag → String
  | .Eq => "EQ"
  | .Gt => "GT"
  | .Lt => "LT"
  | .Geq => "GEQ"
  | .Leq => "LEQ"

/-- `impl Display for OpCode`: the mnemonic printed for each opcode. -/
def opCodeDisplay : OpCode → String
  | .Hlt => "Hlt"
  | .Load => "Load"
  | .AddRI => "Add_RI"
  | .SubRI => "Sub_RI"
  | .RvSubRI => "RvSub_RI"
  | .MulRI => "Mul_RI"
  | .DivRI => "Div_RI"
  | .RvDivRI => "RvDiv_RI"
  | .PowRI => "Pow_RI"
  | .RvPowRI => "RvPow_RI"
  | .AddRR => "Add_RR"
  | .SubRR => "Sub_RR"
  | .MulRR => "Mul_RR"
  | .DivRR => "Div_RR"
  | .PowRR => "Pow_RR"
  | .Call => "Call"
  | .Jz => "Jz"
  | .Jnz => "Jnz"
  | .Jmp => "Jmp"
  | .CmpRI => "Cmp_RI"
  | .CmpRR => "Cmp_RR"
  | .Not => "Not"
  | .Copy => "Copy"
  | .MemCpy => "MemCpy"
  | .SysCall => "SysCall"
  | .Ret => "Ret"
  | .Alloc => "Alloc"
  | .Realloc => "Realloc"
  | .Dealloc => "Dealloc"
  | .RMem => "RMem"
  | .WMem => "WMem"
  | .Push => "Push"
  | .Pop => "Pop"
  | .PopR => "PopR"
  | .Noop => "Noop"
  | .WriteStr => "WriteStr"

/-- Little-endian recomposition of 4 bytes, modelling
`transmute::<[u8; 4], u32>` (and the bit pattern handed to
`transmute::<[u8; 4], f32>`) on the little-endian hosts the crate targets. -/
def le32 (b0 b1 b2 b3 : Nat) : Nat :=
  b0 + b1 * 2 ^ 8 + b2 * 2 ^ 16 + b3 * 2 ^ 24

/-- Strip trailing decimal zeros from a fraction of `d` digits, returning the
stripped value and the number of digits kept. -/
def stripZeros : Nat → Nat → Nat × Nat
  | fp, 0 => (fp, 0)
  | fp, d + 1 => if fp % 10 = 0 then stripZeros (fp / 10) d else (fp, d + 1)

/-- Exact decimal rendering of `m / 2 ^ k` (an integer part, then the exact
binary-fraction digits with trailing zeros removed). -/
def decFrac (m k : Nat) : String :=
  let scaled := m * 5 ^ k
  let ip := scaled / 10 ^ k
  let fp := scaled % 10 ^ k
  if fp = 0 then toString ip
  else
    let s := stripZeros fp k
    let digits := toString s.1
    let pad := String.mk (List.replicate (s.2 - digits.length) '0')
    toString ip ++ "." ++ pad ++ digits

/-- Model of Rust's `Display` (`"{}"`) for an `f32` given by its 32-bit
pattern.  Rust prints the shortest decimal string that rounds back to the
value, positionally, with special cases `NaN`, `inf`, `-inf`, `0`, `-0`.
This model prints the exact decimal expansion of the value, which coincides
with Rust's shortest round-trip output on every integral value of magnitude
below `2 ^ 24` — the only values at which the theorems below evaluate it. -/
def fmtF32 (bits : Nat) : String :=
  let b : Nat := bits % 2 ^ 32
  let sign : Nat := b / 2 ^ 31
  let expo : Nat := (b / 2 ^ 23) % 2 ^ 8
  let frac : Nat := b % 2 ^ 23
  if expo = 255 then
    if frac = 0 then (if sign = 1 then "-inf" else "inf") else "NaN"
  else if expo = 0 ∧ frac = 0 then (if sign = 1 then "-0" else "0")
  else
    let m := if expo = 0 then frac else 2 ^ 23 + frac
    let e : Int := if expo = 0 then -149 else (expo : Int) - 150
    let mag := if 0 ≤ e then toString (m * 2 ^ e.toNat) else decFrac m (-e).toNat
    (if sign = 1 then "-" else "") ++ mag

/-- The conditional-register rendering used by the `Jz`/`Jnz` and
`Not`/`WriteStr` arms of `impl Display for Program`:
`Some(a) if a == 2 => "EQ", Some(a) => a.to_string()`. -/
def condName (a : Nat) : String :=
  if a = 2 then "EQ" else toString a

/-- The fourteen arms of the `match op` in `impl Display for Program`,
grouping opcodes by operand layout. -/
inductive OpFamily where
  | load
  | arithRI
  | arithRR
  | jmp
  | jcond
  | cmpRI
  | cmpRR
  | notWrite
  | copy2
  | callIdx
  | alloc2
  | memAcc
  | oneReg
  | zeroOp
deriving DecidableEq

/-- Which `match` arm of `impl Display for Program` handles each opcode. -/
def opFamily : OpCode → OpFamily
  | .Load => .load
  | .AddRI | .SubRI | .MulRI | .DivRI | .PowRI | .RvSubRI | .RvDivRI | .RvPowRI => .arithRI
  | .AddRR | .SubRR | .MulRR | .DivRR | .PowRR => .arithRR
  | .Jmp => .jmp
  | .Jnz | .Jz => .jcond
  | .CmpRI => .cmpRI
  | .CmpRR => .cmpRR
  | .Not | .WriteStr => .notWrite
  | .Copy | .MemCpy => .copy2
  | .Call | .SysCall | .Ret => .callIdx
  | .Alloc | .Realloc => .alloc2
  | .RMem | .WMem => .memAcc
  | .Dealloc | .Push | .PopR => .oneReg
  | .Hlt | .Pop | .Noop => .zeroOp

/-- Number of operand bytes each `match` arm consumes after the tag byte. -/
def famLen : OpFamily → Nat
  | .load => 5
  | .arithRI => 6
  | .arithRR => 3
  | .jmp => 4
  | .jcond => 5
  | .cmpRI => 6
  | .cmpRR => 3
  | .notWrite => 2
  | .copy2 => 2
  | .callIdx => 1
  | .alloc2 => 2
  | .memAcc => 7
  | .oneReg => 1
  | .zeroOp => 0

/-- One `match` arm of `impl Display for Program`: given the opcode's
mnemonic, consume the arm's operand bytes from the front of `rest` and
produce the rendered line together with the unconsumed remainder.  `none`
models the panics (`unwrap()` of an exhausted iterator, `next_chunk` of a
too-short iterator, `CmpFlag::from` of an invalid flag byte). -/
def decodeFam (mn : String) : OpFamily → List Nat → Option (String × List Nat)
  | .load, target :: b0 :: b1 :: b2 :: b3 :: rest =>
      some (mn ++ " $" ++ toString target ++ ", " ++ fmtF32 (le32 b0 b1 b2 b3), rest)
  | .arithRI, target :: a :: b0 :: b1 :: b2 :: b3 :: rest =>
      some (mn ++ " $" ++ toString target ++ ", $" ++ toString a ++ ", " ++
        fmtF32 (le32 b0 b1 b2 b3), rest)
  | .arithRR, target :: a :: b :: rest =>
      some (mn ++ " $" ++ toString target ++ ", $" ++ toString a ++ ", $" ++ toString b, rest)
  | .jmp, b0 :: b1 :: b2 :: b3 :: rest =>
      some (mn ++ " " ++ toString (le32 b0 b1 b2 b3), rest)
  | .jcond, cond :: b0 :: b1 :: b2 :: b3 :: rest =>
      some (mn ++ " $" ++ condName cond ++ ", " ++ toString (le32 b0 b1 b2 b3), rest)
  | .cmpRI, flb :: a :: b0 :: b1 :: b2 :: b3 :: rest =>
      (cmpFlagFromU8? flb).map fun fl =>
        (mn ++ " " ++ cmpFlagDisplay fl ++ ", $" ++ toString a ++ ", " ++
          fmtF32 (le32 b0 b1 b2 b3), rest)
  | .cmpRR, flb :: a :: b :: rest =>
      (cmpFlagFromU8? flb).map fun fl =>
        (mn ++ " " ++ cmpFlagDisplay fl ++ ", $" ++ toString a ++ ", $" ++ toString b, rest)
  | .notWrite, a :: b :: rest =>
      some (mn ++ " $" ++ condName a ++ ", $" ++ toString b, rest)
  | .copy2, rd :: r0 :: rest =>
      some (mn ++ " $" ++ toString rd ++ ", $" ++ toString r0, rest)
  | .callIdx, idx :: rest =>
      some (mn ++ " " ++ toString idx, rest)
  | .alloc2, dst :: r0 :: rest =>
      some (mn ++ " $" ++ toString dst ++ ", $" ++ toString r0, rest)
  | .memAcc, rd :: r0 :: b0 :: b1 :: b2 :: b3 :: ro :: rest =>
      some (mn ++ " $" ++ toString rd ++ ", $" ++ toString r0 ++ ", " ++
        toString (le32 b0 b1 b2 b3) ++ ", $" ++ toString ro, rest)
  | .oneReg, a :: rest =>
      some (mn ++ " $" ++ toString a, rest)
  | .zeroOp, rest => some (mn, rest)
  | _, _ => none

/-- Decode the operands of one opcode (the body of the `match op` in
`impl Display for Program`). -/
def decodeOperands (op : OpCode) (rest : List Nat) : Option (String × List Nat) :=
  decodeFam (opCodeDisplay op) (opFamily op) rest

/-- Operand byte count the decoder consumes for each opcode. -/
def operandLen (op : OpCode) : Nat :=
  famLen (opFamily op)

/-- Decode one instruction from a tag byte and the remaining buffer:
`OpCode::from(val)` (which panics on an invalid tag) followed by the
operand decode. -/
def decodeOne (t : Nat) (rest : List Nat) : Option (String × List Nat) :=
  (opCodeFromU8? t).bind fun op => decodeOperands op rest

/-- `struct Program { inner: Vec<u8> }` from `src/program.rs`. -/
structure Program where
  inner : List Nat
deriving DecidableEq

/-- The `while let Some(val) = src.next()` loop of `impl Display for Program`,
run with explicit fuel so that it is structurally recursive; each iteration
consumes at least the tag byte, so `fuel = length of the buffer` is always
enough and the `fuel = 0` arm below is never reached from `disasmLines`. -/
def disasmAux : Nat → List Nat → Option (List String)
  | _, [] => some []
  | 0, _ :: _ => none
  | fuel + 1, t :: rest =>
    (decodeOne t rest).bind fun p => (disasmAux fuel p.2).map fun ls => p.1 :: ls

/-- The disassembly loop of `impl Display for Program` over a raw buffer:
the list of rendered lines, or `none` when decoding panics (invalid tag,
invalid flag, or truncated trailing instruction). -/
def disasmLines (bs : List Nat) : Option (List String) :=
  disasmAux bs.length bs

/-- `impl Display for Program`: every line followed by the pushed `'\n'`,
concatenated in order; `none` when the loop panics before `write!`. -/
def programDisplay (p : Program) : Option String :=
  (disasmLines p.inner).map fun ls => String.join (ls.map fun l => l ++ "\n")

/-- `impl Index<u32> for Program`: `&self.inner[index as usize]`; `none`
models the out-of-bounds panic of `Vec` indexing. -/
def programGet (p : Program) (i : Nat) : Option Nat :=
  p.inner[i]?

/-- `impl IndexMut<u32> for Program` followed by a store through the returned
reference: replaces the byte at `i`; `none` models the out-of-bounds panic. -/
def programSet (p : Program) (i v : Nat) : Option Program :=
  if i < p.inner.length then some ⟨p.inner.set i v⟩ else none

/-- `Program::push_front`: `self.inner.splice(0..0, args)`, i.e. the spliced
bytes precede every pre-existing byte. -/
def pushFront (p : Program) (args : List Nat) : Program :=
  ⟨args ++ p.inner⟩

/-- `Program::save`: `file.write_all(self.inner.as_slice())` — the byte
sequence written to the file, assuming the writes succeed. -/
def saveBytes (p : Program) : List Nat :=
  p.inner

/-- `Program::load`: `file.read_to_end(&mut inner)` then
`Program { inner }` — the program built from the file's byte sequence,
assuming the reads succeed. -/
def loadBytes (bs : List Nat) : Program :=
  ⟨bs⟩

theorem fromU8_toU8 (op : OpCode) : opCodeFromU8? (opCodeToU8 op) = some op := by
  cases op <;> rfl

theorem decodeFam_drop {mn : String} {fam : OpFamily} {rest : List Nat} {s : String}
    {rest0 : List Nat} (h : decodeFam mn fam rest = some (s, rest0)) :
    rest0 = rest.drop (famLen fam) := by
  cases fam <;>
    rcases rest with _ | ⟨a, _ | ⟨b, _ | ⟨c, _ | ⟨d, _ | ⟨e, _ | ⟨f, _ | ⟨g, r⟩⟩⟩⟩⟩⟩⟩ <;>
    simp_all [decodeFam, famLen, Option.map_eq_some'] <;>
    (rcases h with ⟨fl, hf, hs, hr⟩; subst hr; rfl)

theorem decodeFam_short {mn : String} {fam : OpFamily} {rest : List Nat}
    (h : rest.length < famLen fam) : decodeFam mn fam rest = none := by
  cases fam <;>
    rcases rest with _ | ⟨a, _ | ⟨b, _ | ⟨c, _ | ⟨d, _ | ⟨e, _ | ⟨f, _ | ⟨g, r⟩⟩⟩⟩⟩⟩⟩ <;>
    first
      | rfl
      | (exfalso; simp only [famLen, List.length_cons, List.length_nil] at h; omega)

theorem decodeFam_append {mn : String} {fam : OpFamily} {rest : List Nat} {s : String}
    {rest0 l : List Nat} (h : decodeFam mn fam rest = some (s, rest0)) :
    decodeFam mn fam (rest ++ l) = some (s, rest0 ++ l) := by
  cases fam <;>
    rcases rest with _ | ⟨a, _ | ⟨b, _ | ⟨c, _ | ⟨d, _ | ⟨e, _ | ⟨f, _ | ⟨g, r⟩⟩⟩⟩⟩⟩⟩ <;>
    simp_all [decodeFam, famLen, Option.map_eq_some'] <;>
    (rcases h with ⟨fl, hf, hs, hr⟩; subst hr; exact ⟨fl, hf, hs, rfl⟩)

theorem decodeOperands_drop {op : OpCode} {rest : List Nat} {s : String} {rest0 : List Nat}
    (h : decodeOperands op rest = some (s, rest0)) : rest0 = rest.drop (operandLen op) :=
  decodeFam_drop h

theorem decodeOne_len {t : Nat} {rest : List Nat} {s : String} {rest0 : List Nat}
    (h : decodeOne t rest = some (s, rest0)) : rest0.length ≤ rest.length := by
  rcases Option.bind_eq_some.mp h with ⟨op, _, hd⟩
  rw [decodeOperands_drop hd]
  simp [List.length_drop]

theorem decodeOne_append {t : Nat} {rest : List Nat} {s : String} {rest0 l : List Nat}
    (h : decodeOne t rest = some (s, rest0)) :
    decodeOne t (rest ++ l) = some (s, rest0 ++ l) := by
  rcases Option.bind_eq_some.mp h with ⟨op, hop, hd⟩
  unfold decodeOne
  rw [hop, Option.some_bind]
  exact decodeFam_append hd

theorem disasmAux_congr_fuel :
    ∀ (f1 f2 : Nat) (l : List Nat), l.length ≤ f1 → l.length ≤ f2 →
      disasmAux f1 l = disasmAux f2 l := by
  intro f1
  induction f1 with
  | zero =>
    intro f2 l h1 _
    have : l = [] := List.eq_nil_of_length_eq_zero (Nat.le_zero.mp h1)
    subst this
    cases f2 <;> rfl
  | succ f ih =>
    intro f2 l h1 h2
    cases l with
    | nil => cases f2 <;> rfl
    | cons t rest =>
      cases f2 with
      | zero => exact absurd h2 (by simp)
      | succ f2' =>
        cases hd : decodeOne t rest with
        | none => simp [disasmAux, hd]
        | some p =>
          obtain ⟨s, rest0⟩ := p
          have hlen := decodeOne_len hd
          have h1' : rest0.length ≤ f := by
            simp only [List.length_cons] at h1; omega
          have h2' : rest0.length ≤ f2' := by
            simp only [List.length_cons] at h2; omega
          simp only [disasmAux, hd, Option.some_bind]
          rw [ih f2' rest0 h1' h2']

theorem disasmAux_append :
    ∀ (fuel : Nat) (bs l : List Nat) (lines : List String), bs.length ≤ fuel →
      disasmAux fuel bs = some lines →
      disasmAux (fuel + l.length) (bs ++ l) = (disasmAux l.length l).map (lines ++ ·) := by
  intro fuel
  induction fuel with
  | zero =>
    intro bs l lines h1 h2
    have : bs = [] := List.eq_nil_of_length_eq_zero (Nat.le_zero.mp h1)
    subst this
    simp only [disasmAux] at h2
    obtain rfl : ([] : List String) = lines := Option.some.inj h2
    rw [List.nil_append, Nat.zero_add,
      disasmAux_congr_fuel l.length l.length l le_rfl le_rfl]
    cases disasmAux l.length l <;> simp
  | succ f ih =>
    intro bs l lines h1 h2
    cases bs with
    | nil =>
      simp only [disasmAux] at h2
      obtain rfl : ([] : List String) = lines := Option.some.inj h2
      rw [List.nil_append]
      rw [disasmAux_congr_fuel (f + 1 + l.length) l.length l (by omega) le_rfl]
      cases disasmAux l.length l <;> simp
    | cons t rest =>
      simp only [disasmAux] at h2
      rcases Option.bind_eq_some.mp h2 with ⟨p, hd, hm⟩
      obtain ⟨s, rest0⟩ := p
      rcases Option.map_eq_some'.mp hm with ⟨tl, ht, hlines⟩
      rw [show f + 1 + l.length = (f + l.length) + 1 by omega, List.cons_append]
      simp only [disasmAux, decodeOne_append hd, Option.some_bind]
      have hlen := decodeOne_len hd
      have hr : rest0.length ≤ f := by
        simp only [List.length_cons] at h1; omega
      rw [ih rest0 l tl hr ht]
      cases disasmAux l.length l <;> simp [← hlines]

theorem disasmLines_append {bs l : List Nat} {lines : List String}
    (h : disasmLines bs = some lines) :
    disasmLines (bs ++ l) = (disasmLines l).map (lines ++ ·) := by
  unfold disasmLines at h ⊢
  rw [List.length_append]
  exact disasmAux_append bs.length bs l lines le_rfl h

/-- C1 counterexample: the claim says decoding `Call` consumes a 4-byte
little-endian u32 index after the tag; on the operand bytes `[14, 1, 0, 0]`
that would yield the line `Call 270` and an empty remainder, but the decoder
consumes a single byte, yielding `Call 14` and leaving `[1, 0, 0]`. -/
theorem call_u32_claim_counterexample :
    decodeOperands OpCode.Call [14, 1, 0, 0] = some ("Call 14", [1, 0, 0]) ∧
    decodeOperands OpCode.Call [14, 1, 0, 0] ≠
      some ("Call " ++ toString (le32 14 1 0 0), []) := by
  decide

/-- C1 (amended): decoding a `Call` instruction consumes a 1-byte index
operand after the tag byte, exactly as `SysCall` and `Ret` do. -/
theorem call_sys_ret_consume_one_byte (idx : Nat) (rest : List Nat) :
    decodeOperands OpCode.Call (idx :: rest) = some ("Call " ++ toString idx, rest) ∧
    decodeOperands OpCode.SysCall (idx :: rest) = some ("SysCall " ++ toString idx, rest) ∧
    decodeOperands OpCode.Ret (idx :: rest) = some ("Ret " ++ toString idx, rest) :=
  ⟨rfl, rfl, rfl⟩

/-- C2: saving a `Program` writes its raw byte buffer verbatim and loading
wraps the file's bytes verbatim, so `load(save(p))` equals `p` byte-for-byte
whenever the file writes and reads succeed (which the byte-sequence model of
the file assumes). -/
theorem save_load_roundtrip (p : Program) : loadBytes (saveBytes p) = p := rfl

/-- C3: (1) whenever the decoder succeeds on an opcode it consumes exactly
that opcode's declared operand byte count, handing exactly the remaining
bytes to the next tag read; (2) when fewer operand bytes than declared
remain, decoding fails instead of reading past the buffer; (3) a buffer that
ends in such a truncated encoding after a cleanly-decodable prefix makes the
whole disassembly fail, so no output line is produced for the partial
trailing instruction. -/
theorem decode_consumes_declared_operand_width :
    (∀ (op : OpCode) (rest : List Nat) (s : String) (rest0 : List Nat),
        decodeOperands op rest = some (s, rest0) → rest0 = rest.drop (operandLen op)) ∧
    (∀ (op : OpCode) (rest : List Nat), rest.length < operandLen op →
        decodeOperands op rest = none) ∧
    (∀ (bs : List Nat) (lines : List String) (op : OpCode) (rest : List Nat),
        disasmLines bs = some lines → rest.length < operandLen op →
        disasmLines (bs ++ opCodeToU8 op :: rest) = none) := by
  refine ⟨fun op rest s rest0 h => decodeOperands_drop h,
          fun op rest h => decodeFam_short h,
          fun bs lines op rest hb h => ?_⟩
  have hnone : decodeOne (opCodeToU8 op) rest = none := by
    unfold decodeOne
    rw [fromU8_toU8, Option.some_bind]
    exact decodeFam_short h
  have hl : disasmLines (opCodeToU8 op :: rest) = none := by
    show disasmAux (opCodeToU8 op :: rest).length (opCodeToU8 op :: rest) = none
    simp only [List.length_cons, disasmAux, hnone, Option.none_bind]
  rw [disasmLines_append hb, hl]
  rfl

/-- C3 witness: the three parts of the theorem applied at concrete inputs
(a complete `Load`, a truncated `Jmp`, and a buffer ending in a truncated
`Load` after a complete `Hlt`). -/
theorem decode_consumes_declared_operand_width_witness :
    ([9] : List Nat) = List.drop (operandLen OpCode.Load) [14, 0, 0, 128, 63, 9] ∧
    decodeOperands OpCode.Jmp [5, 0] = none ∧
    disasmLines ([opCodeToU8 OpCode.Hlt] ++ opCodeToU8 OpCode.Load :: [14, 0]) = none :=
  ⟨decode_consumes_declared_operand_width.1 OpCode.Load [14, 0, 0, 128, 63, 9]
      "Load $14, 1" [9] (by decide),
   decode_consumes_declared_operand_width.2.1 OpCode.Jmp [5, 0] (by decide),
   decode_consumes_declared_operand_width.2.2 [opCodeToU8 OpCode.Hlt] ["Hlt"]
      OpCode.Load [14, 0] (by decide) (by decide)⟩

/-- C4 counterexample: the claim says an out-of-range tag byte surfaces as a
typed decode error returned to the caller; at tag 36, `From<u8> for OpCode`
instead hits its `panic!` arm (`FromPrimitive::from_u8` returns `None`),
aborting rather than returning an error value. -/
theorem invalid_opcode_typed_error_counterexample :
    opCodeFromU8 36 = DecodeOutcome.aborts ∧ opCodeFromU8? 36 = none := by
  decide

/-- C4 (amended): for every byte value that is not the tag of one of the 36
defined opcodes, decoding that byte as an `OpCode` is a fatal decode error,
but it is a `panic!` that aborts the host process rather than a typed decode
error returned to the caller. -/
theorem invalid_opcode_decode_aborts (b : Nat) (h : 36 ≤ b) :
    opCodeFromU8 b = DecodeOutcome.aborts ∧ opCodeFromU8? b = none := by
  have hlen : opCodeList.length = 36 := rfl
  have hn : opCodeFromU8? b = none := List.getElem?_eq_none (hlen ▸ h)
  exact ⟨by unfold opCodeFromU8; rw [hn], hn⟩

/-- C4 witness: the amended theorem applied at tag 200. -/
theorem invalid_opcode_decode_aborts_witness :
    opCodeFromU8 200 = DecodeOutcome.aborts ∧ opCodeFromU8? 200 = none :=
  invalid_opcode_decode_aborts 200 (by decide)

/-- C5: indexing a `Program` returns the byte at offset `i` when `i` is in
bounds, and panics (a fatal error, not a default value) when `i` is at or
past the buffer length; likewise for writes through `IndexMut`. -/
theorem program_index_bounds :
    (∀ (p : Program) (i : Nat) (h : i < p.inner.length),
        programGet p i = some (p.inner.get ⟨i, h⟩)) ∧
    (∀ (p : Program) (i : Nat), p.inner.length ≤ i → programGet p i = none) ∧
    (∀ (p : Program) (i v : Nat), i < p.inner.length →
        programSet p i v = some ⟨p.inner.set i v⟩) ∧
    (∀ (p : Program) (i v : Nat), p.inner.length ≤ i → programSet p i v = none) := by
  refine ⟨fun p i h => ?_, fun p i h => ?_, fun p i v h => ?_, fun p i v h => ?_⟩
  · unfold programGet
    exact List.getElem?_eq_getElem h
  · unfold programGet
    exact List.getElem?_eq_none h
  · unfold programSet
    rw [if_pos h]
  · unfold programSet
    rw [if_neg (Nat.not_lt.mpr h)]

/-- C5 witness: the four parts of the theorem applied to the two-byte
program `[7, 8]`. -/
theorem program_index_bounds_witness :
    programGet ⟨[7, 8]⟩ 1 = some 8 ∧
    programGet ⟨[7, 8]⟩ 5 = none ∧
    programSet ⟨[7, 8]⟩ 0 9 = some ⟨[9, 8]⟩ ∧
    programSet ⟨[7, 8]⟩ 3 9 = none :=
  ⟨program_index_bounds.1 ⟨[7, 8]⟩ 1 (by decide),
   program_index_bounds.2.1 ⟨[7, 8]⟩ 5 (by decide),
   program_index_bounds.2.2.1 ⟨[7, 8]⟩ 0 9 (by decide),
   program_index_bounds.2.2.2 ⟨[7, 8]⟩ 3 9 (by decide)⟩

/-- C6: disassembling the 6-byte program `[Load tag, 14, little-endian bytes
of 1.0f32]` yields exactly the line `Load $14, 1` (and the rendered display
is that line followed by the pushed newline). -/
theorem load_disasm_concrete_line :
    disasmLines [1, 14, 0, 0, 128, 63] = some ["Load $14, 1"] ∧
    programDisplay ⟨[1, 14, 0, 0, 128, 63]⟩ = some "Load $14, 1\n" := by
  decide

/-- C7: `push_front` splices the argument bytes before offset 0, so the new
buffer is exactly `args` followed by the original bytes, its length is the
sum of both lengths, and every pre-existing byte is shifted up by the length
of `args`. -/
theorem push_front_prepends (p : Program) (args : List Nat) :
    (pushFront p args).inner = args ++ p.inner ∧
    (pushFront p args).inner.length = args.length + p.inner.length ∧
    ∀ i : Nat, i < p.inner.length →
      (pushFront p args).inner[args.length + i]? = p.inner[i]? := by
  refine ⟨rfl, by simp [pushFront], fun i h => ?_⟩
  show (args ++ p.inner)[args.length + i]? = p.inner[i]?
  rw [List.getElem?_append_right (by omega), Nat.add_sub_cancel_left]

/-- C7 witness: the shift part of the theorem applied to the repository's
own `push_front_program` shapes. -/
theorem push_front_prepends_witness :
    (pushFront ⟨[9, 8]⟩ [1, 2, 3]).inner[3 + 1]? = (⟨[9, 8]⟩ : Program).inner[1]? :=
  (push_front_prepends ⟨[9, 8]⟩ [1, 2, 3]).2.2 1 (by decide)

/-- C8: disassembly is a pure function of the buffer contents — two
programs with identical byte buffers render identical text, with no
dependence on any runtime context. -/
theorem display_deterministic (p q : Program) (h : p.inner = q.inner) :
    programDisplay p = programDisplay q := by
  unfold programDisplay
  rw [h]

/-- C8 witness: the theorem applied to two copies of the one-byte `Hlt`
program. -/
theorem display_deterministic_witness :
    programDisplay ⟨[0]⟩ = programDisplay ⟨[0]⟩ :=
  display_deterministic ⟨[0]⟩ ⟨[0]⟩ rfl

/-- C9: the `OpCode`/`u8` conversions round-trip, and the 36 variants carry
the consecutive tags 0 through 35 in declaration order. -/
theorem opcode_u8_roundtrip_consecutive_tags :
    (∀ op : OpCode, opCodeFromU8? (opCodeToU8 op) = some op) ∧
    opCodeList.length = 36 ∧
    opCodeToU8 OpCode.Hlt = 0 ∧ opCodeToU8 OpCode.Load = 1 ∧
    opCodeToU8 OpCode.Copy = 2 ∧ opCodeToU8 OpCode.MemCpy = 3 ∧
    opCodeToU8 OpCode.AddRI = 4 ∧ opCodeToU8 OpCode.SubRI = 5 ∧
    opCodeToU8 OpCode.RvSubRI = 6 ∧ opCodeToU8 OpCode.MulRI = 7 ∧
    opCodeToU8 OpCode.DivRI = 8 ∧ opCodeToU8 OpCode.RvDivRI = 9 ∧
    opCodeToU8 OpCode.PowRI = 10 ∧ opCodeToU8 OpCode.RvPowRI = 11 ∧
    opCodeToU8 OpCode.AddRR = 12 ∧ opCodeToU8 OpCode.SubRR = 13 ∧
    opCodeToU8 OpCode.MulRR = 14 ∧ opCodeToU8 OpCode.DivRR = 15 ∧
    opCodeToU8 OpCode.PowRR = 16 ∧ opCodeToU8 OpCode.CmpRI = 17 ∧
    opCodeToU8 OpCode.CmpRR = 18 ∧ opCodeToU8 OpCode.Not = 19 ∧
    opCodeToU8 OpCode.Jmp = 20 ∧ opCodeToU8 OpCode.Jz = 21 ∧
    opCodeToU8 OpCode.Jnz = 22 ∧ opCodeToU8 OpCode.Call = 23 ∧
    opCodeToU8 OpCode.SysCall = 24 ∧ opCodeToU8 OpCode.Ret = 25 ∧
    opCodeToU8 OpCode.Alloc = 26 ∧ opCodeToU8 OpCode.Realloc = 27 ∧
    opCodeToU8 OpCode.Dealloc = 28 ∧ opCodeToU8 OpCode.RMem = 29 ∧
    opCodeToU8 OpCode.WMem = 30 ∧ opCodeToU8 OpCode.WriteStr = 31 ∧
    opCodeToU8 OpCode.Push = 32 ∧ opCodeToU8 OpCode.Pop = 33 ∧
    opCodeToU8 OpCode.PopR = 34 ∧ opCodeToU8 OpCode.Noop = 35 :=
  ⟨fromU8_toU8, by decide⟩

/-- C10: register-operand rendering is inconsistent — the `Jz`/`Jnz` and
`Not`/`WriteStr` arms render a first register operand equal to 2 as `$EQ`
(and any other index as `$` followed by the number), while every other arm
with register operands renders register index 2 as `$2`. -/
theorem register_rendering_inconsistency :
    (∀ (b0 b1 b2 b3 : Nat) (rest : List Nat),
        decodeOperands OpCode.Jz (2 :: b0 :: b1 :: b2 :: b3 :: rest) =
          some ("Jz $EQ, " ++ toString (le32 b0 b1 b2 b3), rest)) ∧
    (∀ (b0 b1 b2 b3 : Nat) (rest : List Nat),
        decodeOperands OpCode.Jnz (2 :: b0 :: b1 :: b2 :: b3 :: rest) =
          some ("Jnz $EQ, " ++ toString (le32 b0 b1 b2 b3), rest)) ∧
    (∀ (b : Nat) (rest : List Nat),
        decodeOperands OpCode.Not (2 :: b :: rest) =
          some ("Not $EQ, $" ++ toString b, rest)) ∧
    (∀ (b : Nat) (rest : List Nat),
        decodeOperands OpCode.WriteStr (2 :: b :: rest) =
          some ("WriteStr $EQ, $" ++ toString b, rest)) ∧
    (∀ (c b0 b1 b2 b3 : Nat) (rest : List Nat), c ≠ 2 →
        decodeOperands OpCode.Jz (c :: b0 :: b1 :: b2 :: b3 :: rest) =
          some ("Jz $" ++ toString c ++ ", " ++ toString (le32 b0 b1 b2 b3), rest)) ∧
    (∀ (c b : Nat) (rest : List Nat), c ≠ 2 →
        decodeOperands OpCode.Not (c :: b :: rest) =
          some ("Not $" ++ toString c ++ ", $" ++ toString b, rest)) ∧
    (∀ (b0 b1 b2 b3 : Nat) (rest : List Nat),
        decodeOperands OpCode.Load (2 :: b0 :: b1 :: b2 :: b3 :: rest) =
          some ("Load $2, " ++ fmtF32 (le32 b0 b1 b2 b3), rest)) ∧
    (∀ (a b0 b1 b2 b3 : Nat) (rest : List Nat),
        decodeOperands OpCode.AddRI (2 :: a :: b0 :: b1 :: b2 :: b3 :: rest) =
          some ("Add_RI $2, $" ++ toString a ++ ", " ++ fmtF32 (le32 b0 b1 b2 b3), rest)) ∧
    (∀ (a b : Nat) (rest : List Nat),
        decodeOperands OpCode.AddRR (2 :: a :: b :: rest) =
          some ("Add_RR $2, $" ++ toString a ++ ", $" ++ toString b, rest)) ∧
    (∀ (b0 b1 b2 b3 : Nat) (rest : List Nat),
        decodeOperands OpCode.CmpRI (0 :: 2 :: b0 :: b1 :: b2 :: b3 :: rest) =
          some ("Cmp_RI EQ, $2, " ++ fmtF32 (le32 b0 b1 b2 b3), rest)) ∧
    (∀ (b : Nat) (rest : List Nat),
        decodeOperands OpCode.CmpRR (0 :: 2 :: b :: rest) =
          some ("Cmp_RR EQ, $2, $" ++ toString b, rest)) ∧
    (∀ (b : Nat) (rest : List Nat),
        decodeOperands OpCode.Copy (2 :: b :: rest) =
          some ("Copy $2, $" ++ toString b, rest)) ∧
    (∀ (b : Nat) (rest : List Nat),
        decodeOperands OpCode.Alloc (2 :: b :: rest) =
          some ("Alloc $2, $" ++ toString b, rest)) ∧
    (∀ (r0 b0 b1 b2 b3 ro : Nat) (rest : List Nat),
        decodeOperands OpCode.RMem (2 :: r0 :: b0 :: b1 :: b2 :: b3 :: ro :: rest) =
          some ("RMem $2, $" ++ toString r0 ++ ", " ++ toString (le32 b0 b1 b2 b3) ++
            ", $" ++ toString ro, rest)) ∧
    (∀ rest : List Nat,
        decodeOperands OpCode.Dealloc (2 :: rest) = some ("Dealloc $2", rest)) := by
  refine ⟨fun b0 b1 b2 b3 rest => rfl, fun b0 b1 b2 b3 rest => rfl,
          fun b rest => rfl, fun b rest => rfl,
          fun c b0 b1 b2 b3 rest h => ?_, fun c b rest h => ?_,
          fun b0 b1 b2 b3 rest => rfl, fun a b0 b1 b2 b3 rest => rfl,
          fun a b rest => rfl, fun b0 b1 b2 b3 rest => rfl, fun b rest => rfl,
          fun b rest => rfl, fun b rest => rfl,
          fun r0 b0 b1 b2 b3 ro rest => rfl, fun rest => rfl⟩
  · show decodeFam "Jz" OpFamily.jcond (c :: b0 :: b1 :: b2 :: b3 :: rest) = _
    simp only [decodeFam, condName, if_neg h]
    rfl
  · show decodeFam "Not" OpFamily.notWrite (c :: b :: rest) = _
    simp only [decodeFam, condName, if_neg h]
    rfl

/-- C10 witness: the two hypothesis-bearing conjuncts applied at register
index 7. -/
theorem register_rendering_inconsistency_witness :
    decodeOperands OpCode.Jz [7, 50, 0, 0, 0] = some ("Jz $7, 50", []) ∧
    decodeOperands OpCode.Not [7, 14] = some ("Not $7, $14", []) :=
  ⟨register_rendering_inconsistency.2.2.2.2.1 7 50 0 0 0 [] (by decide),
   register_rendering_inconsistency.2.2.2.2.2.1 7 14 [] (by decide)⟩

end Spdr
